import Mathlib

/-!
Verification development for the local-script-management process supervisor
(Express server `server/index.js` plus its React dashboard).

Shallow embedding conventions:
* A persisted task (a JSON object in `task/tasks.json`) is modelled by the
  structure `Project`.  A JSON key that may be absent is an `Option` field;
  `none` means the key is not present on the object (JS `undefined` /
  key deleted by rest-destructuring).  Timestamps (`updated_date`,
  `last_started`, `created_date`) are modelled by their parsed value in
  milliseconds (the code only ever compares them through
  `Date.parse(s) || 0`, so the parsed integer with default `0` is the
  observable content).
* JS numbers used as counters and intervals are modelled as `Int`.
* `writeProjectsFile` models the content written to disk: the code
  serializes `items` after stripping the runtime-only keys `status` and
  `runtime_pid` from every object.
-/

structure Project where
  id : String := ""
  name : String := ""
  start_command : String := ""
  status : Option String := none
  runtime_pid : Option Int := none
  auto_restart : Bool := false
  manual_stopped : Bool := false
  was_running_before_shutdown : Bool := false
  max_restarts : Option Int := none
  restart_interval : Option Int := none
  restart_count : Option Int := none
  last_started : Option Int := none
  created_date : Option Int := none
  updated_date : Option Int := none
  deriving DecidableEq, Repr

/-- A JSON patch object (a request body or an internal patch): `some v`
means the key is present with value `v`, `none` means the key is absent.
Spreading a patch over a task (`{ ...task, ...patch }`) replaces exactly
the present keys. -/
structure ProjectPatch where
  id : Option String := none
  name : Option String := none
  start_command : Option String := none
  status : Option String := none
  runtime_pid : Option Int := none
  auto_restart : Option Bool := none
  manual_stopped : Option Bool := none
  was_running_before_shutdown : Option Bool := none
  max_restarts : Option Int := none
  restart_interval : Option Int := none
  restart_count : Option Int := none
  last_started : Option Int := none
  created_date : Option Int := none
  updated_date : Option Int := none
  deriving DecidableEq, Repr

/-- JS object spread `{ ...t, ...p }`: keys present on `p` win. -/
def applyPatch (t : Project) (p : ProjectPatch) : Project :=
  { id := p.id.getD t.id
    name := p.name.getD t.name
    start_command := p.start_command.getD t.start_command
    status := p.status.or t.status
    runtime_pid := p.runtime_pid.or t.runtime_pid
    auto_restart := p.auto_restart.getD t.auto_restart
    manual_stopped := p.manual_stopped.getD t.manual_stopped
    was_running_before_shutdown := p.was_running_before_shutdown.getD t.was_running_before_shutdown
    max_restarts := p.max_restarts.or t.max_restarts
    restart_interval := p.restart_interval.or t.restart_interval
    restart_count := p.restart_count.or t.restart_count
    last_started := p.last_started.or t.last_started
    created_date := p.created_date.or t.created_date
    updated_date := p.updated_date.or t.updated_date }

/-- `const { status, runtime_pid, ...rest } = p; return rest;` -/
def sanitizeProject (t : Project) : Project :=
  { t with status := none, runtime_pid := none }

/-- `writeProjectsFile(items)`: the JSON array actually serialized to
`task/tasks.json` (every object with `status`/`runtime_pid` stripped). -/
def writeProjectsFile (items : List Project) : List Project :=
  items.map sanitizeProject

/-- `Date.parse(p.updated_date || '') || 0` — the timestamp the dedupe
comparison uses; a missing or unparseable date counts as `0`. -/
def updatedTime (t : Project) : Int :=
  t.updated_date.getD 0

/-- JS `String.prototype.trim()`: strip leading and trailing whitespace
(executable model over the character list). -/
def jsTrim (s : String) : String :=
  String.mk (((s.data.dropWhile Char.isWhitespace).reverse.dropWhile Char.isWhitespace).reverse)

/-- Lookup in the insertion-ordered association list that models the JS
`Map` used by `dedupeProjects`. -/
def lookupA : List (String × Project) → String → Option Project
  | [], _ => none
  | (k, v) :: rest, key => if k = key then some v else lookupA rest key

/-- `map.set(id, p)` on a key that is already present: replace the value
in place, keeping the original insertion position. -/
def mapUpdate : List (String × Project) → String → Project → List (String × Project)
  | [], _, _ => []
  | (k, v) :: rest, key, nv =>
      if k = key then (k, nv) :: rest else (k, v) :: mapUpdate rest key nv

/-- One loop iteration of `dedupeProjects`: skip entries with a blank
(trimmed) id; first occurrence of an id is inserted; a later occurrence
replaces it only when its parsed `updated_date` is strictly greater. -/
def dedupeStep (acc : List (String × Project)) (p : Project) : List (String × Project) :=
  let id := jsTrim p.id
  if id = "" then acc
  else
    match lookupA acc id with
    | none => acc ++ [(id, p)]
    | some prev => if updatedTime prev < updatedTime p then mapUpdate acc id p else acc

/-- `dedupeProjects(items)`: collapse duplicate ids, keeping per id the
entry with the strictly latest parsed `updated_date` (ties keep the
earlier entry); output order is the insertion order of first occurrence,
as `Array.from(map.values())` yields. -/
def dedupeProjects (items : List Project) : List Project :=
  (items.foldl dedupeStep []).map Prod.snd

/-- `readProjectsFile` parses the file and returns `dedupeProjects` of it;
`POST /api/projects/dedupe` then writes `dedupeProjects` of that and a
following `list` (`GET /api/projects`) re-reads, i.e. re-dedupes, the
sanitized written array. -/
def listAfterDedupe (items : List Project) : List Project :=
  dedupeProjects (writeProjectsFile (dedupeProjects items))

/-- `patchProject(id, patch, opts)`: re-read the store, find the first
item with exactly this `id` (no trimming here), merge the patch, stamp
`updated_date := now` unless `opts.skipUpdatedDate`, and write the file.
When the id is absent the function returns without writing; the store is
unchanged.  The result is the new store content. -/
def patchProject (items : List Project) (id : String) (patch : ProjectPatch)
    (skipUpdatedDate : Bool) (now : Int) : List Project :=
  match items.findIdx? (fun p => p.id = id) with
  | none => items
  | some i =>
      match items[i]? with
      | none => items
      | some old =>
          let updated := applyPatch old patch
          let updated :=
            if skipUpdatedDate then updated else { updated with updated_date := some now }
          writeProjectsFile (items.set i updated)

/-- `PUT /api/projects/:id`: find by id, 404 (no write) when absent,
otherwise merge the body and stamp `updated_date := now`, then write. -/
def updateProjectHandler (items : List Project) (id : String) (data : ProjectPatch)
    (now : Int) : List Project :=
  match items.findIdx? (fun p => p.id = id) with
  | none => items
  | some i =>
      match items[i]? with
      | none => items
      | some old =>
          let updated := { applyPatch old data with updated_date := some now }
          writeProjectsFile (items.set i updated)

/-- The file contents written by one store-mutating operation, `none`
when the operation does not write (create on an existing id, update or
patch or delete on a missing id). -/
inductive StoreOp where
  | create (proj : Project)
  | update (id : String) (data : ProjectPatch) (now : Int)
  | patch (id : String) (p : ProjectPatch) (skipUpdatedDate : Bool) (now : Int)
  | remove (id : String)
  | dedupe
  deriving Repr

def storeOpWrite (op : StoreOp) (items : List Project) : Option (List Project) :=
  match op with
  | .create proj =>
      if items.any (fun p => p.id = proj.id) then none
      else some (writeProjectsFile (items ++ [proj]))
  | .update id data now =>
      match items.findIdx? (fun p => p.id = id) with
      | none => none
      | some i =>
          match items[i]? with
          | none => none
          | some old =>
              some (writeProjectsFile
                (items.set i { applyPatch old data with updated_date := some now }))
  | .patch id p skip now =>
      match items.findIdx? (fun q => q.id = id) with
      | none => none
      | some i =>
          match items[i]? with
          | none => none
          | some old =>
              let updated := applyPatch old p
              let updated := if skip then updated else { updated with updated_date := some now }
              some (writeProjectsFile (items.set i updated))
  | .remove id =>
      if items.any (fun p => p.id = id) then
        some (writeProjectsFile (items.filter (fun p => p.id ≠ id)))
      else none
  | .dedupe => some (writeProjectsFile (dedupeProjects items))

theorem mem_writeProjectsFile_clean (xs : List Project) :
    ∀ t ∈ writeProjectsFile xs, t.status = none ∧ t.runtime_pid = none := by
  intro t ht
  rcases List.mem_map.1 ht with ⟨s, _, rfl⟩
  exact ⟨rfl, rfl⟩

/-- C2: for every write of the task store file — by any of create
(`POST /api/projects`), update (`PUT /api/projects/:id`), delete
(`DELETE /api/projects/:id`), dedupe (`POST /api/projects/dedupe`) or an
internal `patchProject` call (supervisor / guardian) — the serialized
JSON array contains no `status` key and no `runtime_pid` key under any
task, even when those keys were present on the objects being written. -/
theorem store_write_runtime_purity (op : StoreOp) (items out : List Project)
    (h : storeOpWrite op items = some out) :
    ∀ t ∈ out, t.status = none ∧ t.runtime_pid = none := by
  cases op <;> simp only [storeOpWrite] at h <;> repeat' split at h
  all_goals
    first
      | exact Option.noConfusion h
      | (rw [Option.some_inj] at h; rw [← h]; exact mem_writeProjectsFile_clean _)

/-- A sample stored object that arrives on a write carrying the runtime
keys `status` and `runtime_pid`. -/
def projWithRuntime : Project :=
  { id := "proj_a", name := "demo", status := some "running", runtime_pid := some 42,
    updated_date := some 5 }

theorem store_write_runtime_purity_witness :
    (sanitizeProject projWithRuntime).status = none ∧
      (sanitizeProject projWithRuntime).runtime_pid = none :=
  store_write_runtime_purity .dedupe [projWithRuntime]
    (writeProjectsFile (dedupeProjects [projWithRuntime])) rfl
    (sanitizeProject projWithRuntime) (by decide)

/-- In-memory registry entry for a task id (`processes.get(id)`), reduced
to what `DELETE /api/projects/:id` consults: the child's pid and whether
`isRunning(entry.child)` holds (exit code still null and not killed). -/
structure RegEntry where
  pid : Int
  running : Bool
  deriving DecidableEq, Repr

def regLookup : List (String × RegEntry) → String → Option RegEntry
  | [], _ => none
  | (k, v) :: rest, key => if k = key then some v else regLookup rest key

/-- Observable side effects of the delete handler, in program order. -/
inductive DelAction where
  | treeKillChild (pid : Int)
  | registryRemove (id : String)
  | writeStoreFile
  deriving DecidableEq, Repr

structure DeleteOutcome where
  actions : List DelAction
  respOk : Bool
  store : List Project
  wrote : Bool
  deriving Repr

/-- `DELETE /api/projects/:id`: tree-kill the live child when one is
running, then drop the id from the in-memory registry; then remove the
persisted config if present (the file is rewritten only when the id was
found); always respond `{ok:true}`. -/
def deleteProjectHandler (reg : List (String × RegEntry)) (items : List Project)
    (id : String) : DeleteOutcome :=
  let killActs :=
    match regLookup reg id with
    | some e => if e.running then [DelAction.treeKillChild e.pid] else []
    | none => []
  let found := items.any (fun p => p.id = id)
  let filtered := if found then items.filter (fun p => p.id ≠ id) else items
  { actions := killActs ++ [DelAction.registryRemove id] ++
      (if found then [DelAction.writeStoreFile] else [])
    respOk := true
    store := if found then writeProjectsFile filtered else items
    wrote := found }

/-- C10: `DELETE /api/projects/:id` responds `{ok:true}` for every id —
including an id with no stored task and no registry entry; when the id is
absent from the store the task file is not rewritten and the store is
untouched; and when a running registry entry exists its child is
tree-terminated strictly before the entry is removed from the registry. -/
theorem delete_project_contract (reg : List (String × RegEntry))
    (items : List Project) (id : String) :
    (deleteProjectHandler reg items id).respOk = true ∧
    ((∀ t ∈ items, t.id ≠ id) →
      (deleteProjectHandler reg items id).wrote = false ∧
      (deleteProjectHandler reg items id).store = items) ∧
    (∀ e, regLookup reg id = some e → e.running = true →
      (deleteProjectHandler reg items id).actions.get? 0 =
          some (DelAction.treeKillChild e.pid) ∧
      (deleteProjectHandler reg items id).actions.get? 1 =
          some (DelAction.registryRemove id)) := by
  have hany : (∀ t ∈ items, t.id ≠ id) → (items.any fun p => p.id = id) = false := by
    intro hall
    rw [List.any_eq_false]
    intro p hp
    simp [hall p hp]
  refine ⟨rfl, ?_, ?_⟩
  · intro hall
    simp [deleteProjectHandler, hany hall]
  · intro e he hrun
    simp [deleteProjectHandler, he, hrun]

theorem delete_project_contract_witness :
    (deleteProjectHandler [("a", ⟨77, true⟩)] [] "a").respOk = true ∧
    ((deleteProjectHandler [("a", ⟨77, true⟩)] [] "a").wrote = false ∧
      (deleteProjectHandler [("a", ⟨77, true⟩)] [] "a").store = []) ∧
    ((deleteProjectHandler [("a", ⟨77, true⟩)] [] "a").actions.get? 0 =
        some (DelAction.treeKillChild 77) ∧
      (deleteProjectHandler [("a", ⟨77, true⟩)] [] "a").actions.get? 1 =
        some (DelAction.registryRemove "a")) := by
  obtain ⟨h1, h2, h3⟩ := delete_project_contract [("a", ⟨77, true⟩)] [] "a"
  exact ⟨h1, h2 (by intro t ht; cases ht), h3 ⟨77, true⟩ rfl rfl⟩

/-- HTTP routes registered on the Express `app`, in registration order.
The final `GET *` entry is the static-assets catch-all (mounted only when
a `dist` directory exists, and only for `GET`). -/
inductive HttpMethod where
  | get
  | post
  | put
  | delete
  deriving DecidableEq, Repr

structure Route where
  method : HttpMethod
  pattern : String
  deriving DecidableEq, Repr

def appRoutes : List Route :=
  [ ⟨.post, "/api/projects/start"⟩,
    ⟨.post, "/api/projects/stop"⟩,
    ⟨.get, "/api/projects/status/:id"⟩,
    ⟨.get, "/api/projects/logs/:id"⟩,
    ⟨.get, "/api/projects"⟩,
    ⟨.post, "/api/projects"⟩,
    ⟨.put, "/api/projects/:id"⟩,
    ⟨.delete, "/api/projects/:id"⟩,
    ⟨.post, "/api/projects/dedupe"⟩,
    ⟨.get, "/api/processes/search"⟩,
    ⟨.get, "/api/processes/by-port/:port"⟩,
    ⟨.post, "/api/processes/kill"⟩,
    ⟨.post, "/api/projects/restart"⟩,
    ⟨.get, "*"⟩ ]

/-- Split a path on `'/'` (as JS `"a/b".split('/')` does). -/
def splitSlash : List Char → List (List Char)
  | [] => [[]]
  | c :: rest =>
      let r := splitSlash rest
      if c = '/' then [] :: r
      else
        match r with
        | [] => [[c]]
        | h :: t => (c :: h) :: t

def pathSegs (s : String) : List String :=
  (splitSlash s.data).map String.mk

/-- An Express pattern segment `:name` matches any non-empty segment;
a literal segment matches itself. -/
def segMatches (pat seg : String) : Bool :=
  match pat.data with
  | ':' :: _ => seg ≠ ""
  | _ => pat = seg

def segsMatch : List String → List String → Bool
  | [], [] => true
  | p :: ps, s :: ss => segMatches p s && segsMatch ps ss
  | _, _ => false

def routeMatches (r : Route) (m : HttpMethod) (path : String) : Bool :=
  r.method = m && (r.pattern = "*" || segsMatch (pathSegs r.pattern) (pathSegs path))

/-- First registered route matching a request; `none` means Express falls
through to its default 404 handler (no buffer is touched). -/
def dispatchRoute (m : HttpMethod) (path : String) : Option Route :=
  appRoutes.find? (fun r => routeMatches r m path)

/-- C8: the server has no `DELETE /api/projects/logs/:id` route at all —
the request dispatches to no handler (Express default 404; the ring
buffers are never cleared), while the `GET` twin of the same path does
dispatch to the logs route.  `ringBuffer.clear()` exists in the source
but has no caller. -/
theorem clear_logs_route_missing :
    dispatchRoute HttpMethod.delete "/api/projects/logs/t1" = none ∧
    dispatchRoute HttpMethod.get "/api/projects/logs/t1" =
      some ⟨HttpMethod.get, "/api/projects/logs/:id"⟩ := by
  constructor
  · rfl
  · rfl

/-- Events that can reach the `POST /api/projects/start` handler after it
spawns the child: pipe data callbacks, the child process `error` /
`exit` events, and the `setTimeout` startup-deadline callback.  The Node
event loop delivers them one at a time, after the synchronous handler
body (which has already registered the entry in `processes`). -/
inductive StartEvent where
  | stdoutData (line : String)
  | stderrData (line : String)
  | spawnError (msg : String)
  | exited (code : Option Int) (signal : Option String)
  | timeoutFired
  deriving DecidableEq, Repr

/-- The JSON body the start handler responds with: `{ok:true, pid}` or
`{ok:false, error, code, signal, logs:{stdout, stderr}}`. -/
inductive StartResp where
  | ok (pid : Int)
  | fail (error : String) (code : Option Int) (signal : Option String)
      (stdoutLogs stderrLogs : List String)
  deriving DecidableEq, Repr

/-- Handler-visible state: the `responded` latch, the response actually
sent, the registry entry's runtime fields, the two ring buffers, and
whether the child has exited (`child.exitCode !== null`). -/
structure StartState where
  responded : Bool := false
  response : Option StartResp := none
  entryStatus : String := "running"
  entryExitCode : Option Int := none
  entrySignal : Option String := none
  stdoutBuf : List String := []
  stderrBuf : List String := []
  childExited : Bool := false
  deriving DecidableEq, Repr

/-- `ringBuffer(limit).push(line)`: append, evicting the head beyond the
capacity. -/
def rbPush (limit : Nat) (arr : List String) (line : String) : List String :=
  let arr' := arr ++ [line]
  if limit < arr'.length then arr'.drop 1 else arr'

def jsNumToString : Option Int → String
  | some n => toString n
  | none => "null"

/-- The template literal of the `exit` listener:
`` `process exited with code ${code}${signal ? `, signal ${signal}` : ''}` ``. -/
def exitMessage (code : Option Int) (signal : Option String) : String :=
  "process exited with code " ++ jsNumToString code ++
    (match signal with
     | some s => if s = "" then "" else ", signal " ++ s
     | none => "")

/-- The failure body `respondFail` would emit for a given child event
from a given state (snapshotting the current buffers). -/
def failRespOf (s : StartState) : StartEvent → Option StartResp
  | .spawnError msg =>
      some (.fail ("spawn error: " ++ msg) none none s.stdoutBuf s.stderrBuf)
  | .exited code signal =>
      some (.fail (exitMessage code signal) code signal s.stdoutBuf s.stderrBuf)
  | _ => none

/-- One event delivered to the start handler's listeners (faithful to the
`data`, `error`, `exit` and `setTimeout` callbacks of the route). -/
def startStep (pid : Int) (s : StartState) : StartEvent → StartState
  | .stdoutData l => { s with stdoutBuf := rbPush 500 s.stdoutBuf l }
  | .stderrData l => { s with stderrBuf := rbPush 500 s.stderrBuf l }
  | .spawnError msg =>
      if s.responded then
        { s with entryStatus := "stopped", entryExitCode := some (-1), entrySignal := none }
      else
        { s with entryStatus := "stopped", entryExitCode := some (-1), entrySignal := none,
                 responded := true,
                 response := some (.fail ("spawn error: " ++ msg) none none
                   s.stdoutBuf s.stderrBuf) }
  | .exited code signal =>
      if s.responded then
        { s with entryStatus := "stopped", entryExitCode := code, entrySignal := signal,
                 childExited := true }
      else
        { s with entryStatus := "stopped", entryExitCode := code, entrySignal := signal,
                 childExited := true, responded := true,
                 response := some (.fail (exitMessage code signal) code signal
                   s.stdoutBuf s.stderrBuf) }
  | .timeoutFired =>
      if s.responded then s
      else if s.childExited then
        { s with responded := true,
                 response := some (.fail "process not running after startup timeout" none none
                   s.stdoutBuf s.stderrBuf) }
      else { s with responded := true, response := some (.ok pid) }

def initStartState : StartState := {}

def runStart (pid : Int) (s : StartState) (evs : List StartEvent) : StartState :=
  evs.foldl (startStep pid) s

def isFailEvent : StartEvent → Bool
  | .spawnError _ => true
  | .exited _ _ => true
  | _ => false

def isChildEvent : StartEvent → Bool
  | .timeoutFired => false
  | _ => true

/-- `startup_timeout_ms` handling: a positive number is used as-is,
anything else falls back to 2000 ms. -/
def effectiveStartupTimeout : Option Int → Int
  | some t => if 0 < t then t else 2000
  | none => 2000

theorem startStep_frozen (pid : Int) (s : StartState) (e : StartEvent)
    (h : s.responded = true) :
    (startStep pid s e).responded = true ∧ (startStep pid s e).response = s.response := by
  cases e <;> simp [startStep, h]

theorem runStart_frozen (pid : Int) (evs : List StartEvent) :
    ∀ s : StartState, s.responded = true → (runStart pid s evs).response = s.response := by
  induction evs with
  | nil => intro s _; rfl
  | cons e rest ih =>
      intro s h
      obtain ⟨h1, h2⟩ := startStep_frozen pid s e h
      simpa [runStart, h2] using ih (startStep pid s e) h1

theorem startStep_stopped (pid : Int) (s : StartState) (e : StartEvent)
    (h : s.entryStatus = "stopped") : (startStep pid s e).entryStatus = "stopped" := by
  cases e <;> unfold startStep <;> (repeat' split) <;> simp [h]

theorem runStart_stopped (pid : Int) (evs : List StartEvent) :
    ∀ s : StartState, s.entryStatus = "stopped" →
      (runStart pid s evs).entryStatus = "stopped" := by
  induction evs with
  | nil => intro s h; exact h
  | cons e rest ih =>
      intro s h
      exact ih (startStep pid s e) (startStep_stopped pid s e h)

theorem runStart_dataOnly (pid : Int) (evs : List StartEvent)
    (hd : ∀ e ∈ evs, isFailEvent e = false ∧ isChildEvent e = true) :
    ∀ s : StartState,
      (runStart pid s evs).responded = s.responded ∧
      (runStart pid s evs).response = s.response ∧
      (runStart pid s evs).childExited = s.childExited ∧
      (runStart pid s evs).entryStatus = s.entryStatus := by
  induction evs with
  | nil => intro s; exact ⟨rfl, rfl, rfl, rfl⟩
  | cons e rest ih =>
      intro s
      have he := hd e (List.mem_cons_self e rest)
      have hrest : ∀ e ∈ rest, isFailEvent e = false ∧ isChildEvent e = true :=
        fun e hmem => hd e (List.mem_cons_of_mem _ hmem)
      have hstep : (startStep pid s e).responded = s.responded ∧
          (startStep pid s e).response = s.response ∧
          (startStep pid s e).childExited = s.childExited ∧
          (startStep pid s e).entryStatus = s.entryStatus := by
        cases e <;> simp [isFailEvent, isChildEvent] at he <;> simp [startStep]
      obtain ⟨a1, a2, a3, a4⟩ := hstep
      obtain ⟨b1, b2, b3, b4⟩ := ih hrest (startStep pid s e)
      exact ⟨by rw [runStart] at b1 ⊢; simp [List.foldl_cons, b1, a1],
             by rw [runStart] at b2 ⊢; simp [List.foldl_cons, b2, a2],
             by rw [runStart] at b3 ⊢; simp [List.foldl_cons, b3, a3],
             by rw [runStart] at b4 ⊢; simp [List.foldl_cons, b4, a4]⟩

theorem startStep_fail (pid : Int) (s : StartState) (e : StartEvent)
    (hr : s.responded = false) (hf : isFailEvent e = true) :
    (startStep pid s e).responded = true ∧
    (startStep pid s e).response = failRespOf s e ∧
    (startStep pid s e).entryStatus = "stopped" := by
  cases e <;> simp [isFailEvent] at hf <;> simp [startStep, failRespOf, hr]

/-- C1: the startup-validation race of `POST /api/projects/start` (with
valid `id` and `start_command`).  The startup window is
`startup_timeout_ms` when that is a positive number and 2000 ms
otherwise.  If the child fires a spawn error or exits before the window
elapses, the response is `ok:false` carrying the stdout/stderr snapshots
taken at that moment, and the registry entry is flipped to `stopped`;
later events never change the response.  If the child is still alive
when the window elapses, the response is `ok:true` with the child's pid. -/
theorem start_startup_window_race (pid : Int) (pre post : List StartEvent)
    (hpre : ∀ e ∈ pre, isChildEvent e = true) :
    effectiveStartupTimeout none = 2000 ∧
    (∀ p1 fe p2, pre = p1 ++ fe :: p2 → isFailEvent fe = true →
      (∀ e ∈ p1, isFailEvent e = false) →
      (runStart pid initStartState (pre ++ .timeoutFired :: post)).response =
          failRespOf (runStart pid initStartState p1) fe ∧
      (runStart pid initStartState (pre ++ .timeoutFired :: post)).entryStatus = "stopped") ∧
    ((∀ e ∈ pre, isFailEvent e = false) →
      (runStart pid initStartState (pre ++ .timeoutFired :: post)).response =
        some (.ok pid)) := by
  refine ⟨rfl, ?_, ?_⟩
  · intro p1 fe p2 hsplit hfail hp1
    subst hsplit
    have hp1c : ∀ e ∈ p1, isFailEvent e = false ∧ isChildEvent e = true :=
      fun e hm => ⟨hp1 e hm, hpre e (by simp [hm])⟩
    obtain ⟨d1, d2, _, _⟩ := runStart_dataOnly pid p1 hp1c initStartState
    have hr1 : (runStart pid initStartState p1).responded = false := by rw [d1]; rfl
    obtain ⟨f1, f2, f3⟩ := startStep_fail pid (runStart pid initStartState p1) fe hr1 hfail
    have hrun : runStart pid initStartState ((p1 ++ fe :: p2) ++ .timeoutFired :: post) =
        runStart pid (startStep pid (runStart pid initStartState p1) fe)
          (p2 ++ .timeoutFired :: post) := by
      simp [runStart, List.foldl_append]
    rw [hrun]
    constructor
    · rw [runStart_frozen pid _ _ f1, f2]
    · exact runStart_stopped pid _ _ f3
  · intro hnone
    have hprec : ∀ e ∈ pre, isFailEvent e = false ∧ isChildEvent e = true :=
      fun e hm => ⟨hnone e hm, hpre e hm⟩
    obtain ⟨d1, d2, d3, _⟩ := runStart_dataOnly pid pre hprec initStartState
    have hr1 : (runStart pid initStartState pre).responded = false := by rw [d1]; rfl
    have hc1 : (runStart pid initStartState pre).childExited = false := by rw [d3]; rfl
    have hstep :
        (startStep pid (runStart pid initStartState pre) .timeoutFired).response =
            some (.ok pid) ∧
        (startStep pid (runStart pid initStartState pre) .timeoutFired).responded = true := by
      simp [startStep, hr1, hc1]
    have hrun : runStart pid initStartState (pre ++ .timeoutFired :: post) =
        runStart pid (startStep pid (runStart pid initStartState pre) .timeoutFired) post := by
      simp [runStart, List.foldl_append]
    rw [hrun, runStart_frozen pid _ _ hstep.2, hstep.1]

/-- The race decided at concrete inputs: a child that prints to stderr
and exits with code 2 inside the window yields `ok:false` with the
captured logs and a stopped entry; a quiet child alive at the deadline
yields `ok:true` with its pid. -/
theorem start_startup_window_race_witness :
    (runStart 9 initStartState
        [.stderrData "boom", .exited (some 2) none, .timeoutFired]).response =
      some (.fail "process exited with code 2" (some 2) none [] ["boom"]) ∧
    (runStart 9 initStartState
        [.stderrData "boom", .exited (some 2) none, .timeoutFired]).entryStatus = "stopped" ∧
    (runStart 9 initStartState [.stdoutData "ready", .timeoutFired]).response =
      some (.ok 9) := by
  obtain ⟨-, h2, -⟩ := start_startup_window_race 9 [.stderrData "boom", .exited (some 2) none]
    [] (by intro e he; fin_cases he <;> rfl)
  obtain ⟨ha, hb⟩ := h2 [.stderrData "boom"] (.exited (some 2) none) []
    rfl rfl (by intro e he; fin_cases he <;> rfl)
  obtain ⟨-, -, h3⟩ := start_startup_window_race 9 [.stdoutData "ready"] []
    (by intro e he; fin_cases he <;> rfl)
  exact ⟨ha.trans rfl, hb, h3 (by intro e he; fin_cases he <;> rfl)⟩

/-- External observations of one guardian tick for a fixed task id:
`Date.now()` at the tick, `isTaskRunning(id)` at the tick, and the
outcome `guardianAttemptStart` would return if the tick attempts. -/
structure GuardInput where
  now : Int
  running : Bool
  attemptOk : Bool
  deriving DecidableEq, Repr

/-- The guardian's success bookkeeping,
`patchProject(id, {restart_count: 0, manual_stopped: false, last_started:
now, was_running_before_shutdown: true})`, restricted to the task's own
store row.  `patchProject` looks the row up by the *trimmed* id, so the
patch lands only when the stored id equals it; default options, so
`updated_date` is stamped too. -/
def guardSuccessPatch (t : Project) (id : String) (now : Int) : Project :=
  if t.id = id then
    { t with restart_count := some 0, manual_stopped := false,
             last_started := some now, was_running_before_shutdown := true,
             updated_date := some now }
  else t

/-- The guardian's failure bookkeeping,
`patchProject(id, {restart_count: newCount})`, restricted to the task's
own store row (same id-lookup and default-options caveats). -/
def guardFailPatch (t : Project) (id : String) (newCount : Int) (now : Int) : Project :=
  if t.id = id then { t with restart_count := some newCount, updated_date := some now }
  else t

/-- One guardian tick for one task (the body of the `for` loop in
`setupGuardian`), returning the task's store row after the tick, the
guardian state (`nextAttemptAt`, `none` when deleted) and whether a
restart attempt (`guardianAttemptStart`) was issued. -/
def guardianTick (t : Project) (g : Option Int) (inp : GuardInput) :
    Project × Option Int × Bool :=
  let id := jsTrim t.id
  if id = "" then (t, g, false)
  else if !t.auto_restart || t.manual_stopped || !t.was_running_before_shutdown then
    (t, none, false)
  else
    let maxRestarts := t.max_restarts.getD 5
    let intervalSec := t.restart_interval.getD 15
    let currentCount := t.restart_count.getD 0
    if 0 < maxRestarts ∧ maxRestarts ≤ currentCount then (t, g, false)
    else if inp.running then (t, none, false)
    else if inp.now < g.getD 0 then (t, g, false)
    else if inp.attemptOk then (guardSuccessPatch t id inp.now, none, true)
    else
      (guardFailPatch t id (currentCount + 1) inp.now,
       some (inp.now + max 1 intervalSec * 1000), true)

/-- The subsequence of ticks at which the guardian issues an attempt for
the task, threading the evolving store row and guardian state. -/
def guardianAttemptList (t : Project) (g : Option Int) : List GuardInput → List GuardInput
  | [] => []
  | inp :: rest =>
      let r := guardianTick t g inp
      if r.2.2 then inp :: guardianAttemptList r.1 r.2.1 rest
      else guardianAttemptList r.1 r.2.1 rest

theorem guardianTick_manual (t : Project) (g : Option Int) (inp : GuardInput)
    (h : t.manual_stopped = true) :
    (guardianTick t g inp).1 = t ∧ (guardianTick t g inp).2.2 = false := by
  by_cases hid : jsTrim t.id = ""
  · simp [guardianTick, hid]
  · simp [guardianTick, hid, h]

/-- C3: while the stored `manual_stopped` is true, the guardian issues no
restart attempt for the task on any tick, whatever `auto_restart`,
`restart_count` or the next-attempt time are, and however many ticks
elapse. -/
theorem guardian_manual_stop_suppression (inputs : List GuardInput) (t : Project)
    (g : Option Int) (h : t.manual_stopped = true) :
    guardianAttemptList t g inputs = [] := by
  induction inputs generalizing t g with
  | nil => rfl
  | cons inp rest ih =>
      obtain ⟨h1, h2⟩ := guardianTick_manual t g inp h
      simp only [guardianAttemptList, h2, if_false, Bool.false_eq_true]
      rw [h1]
      exact ih _ _ h

/-- Exhaustive shape of one guardian tick: either no attempt is issued
and the store row is untouched (guardian state either kept or deleted),
or an attempt is issued, which requires the next-attempt time to have
been reached, the consecutive-failure cap not to be hit, a non-blank id
and a non-running task; the attempt outcome decides the bookkeeping. -/
theorem guardianTick_spec (t : Project) (g : Option Int) (inp : GuardInput) :
    ((guardianTick t g inp).2.2 = false ∧ (guardianTick t g inp).1 = t ∧
      ((guardianTick t g inp).2.1 = g ∨ (guardianTick t g inp).2.1 = none)) ∨
    ((guardianTick t g inp).2.2 = true ∧ g.getD 0 ≤ inp.now ∧
      ¬(0 < t.max_restarts.getD 5 ∧ t.max_restarts.getD 5 ≤ t.restart_count.getD 0) ∧
      jsTrim t.id ≠ "" ∧ inp.running = false ∧
      ((inp.attemptOk = true ∧
         guardianTick t g inp = (guardSuccessPatch t (jsTrim t.id) inp.now, none, true)) ∨
       (inp.attemptOk = false ∧
         guardianTick t g inp =
           (guardFailPatch t (jsTrim t.id) (t.restart_count.getD 0 + 1) inp.now,
            some (inp.now + max 1 (t.restart_interval.getD 15) * 1000), true)))) := by
  simp only [guardianTick]
  repeat' split
  all_goals
    first
    | exact Or.inl ⟨rfl, rfl, Or.inl rfl⟩
    | exact Or.inl ⟨rfl, rfl, Or.inr rfl⟩
    | (refine Or.inr ⟨rfl, by omega, ?_, ?_, ?_, Or.inl ⟨by assumption, rfl⟩⟩ <;> simp_all)
    | (refine Or.inr ⟨rfl, by omega, ?_, ?_, ?_, Or.inr ⟨by simp_all, rfl⟩⟩ <;> simp_all)

theorem guardianTick_noattempt_task (t : Project) (g : Option Int) (inp : GuardInput)
    (h : (guardianTick t g inp).2.2 = false) : (guardianTick t g inp).1 = t := by
  rcases guardianTick_spec t g inp with ⟨-, ht, -⟩ | ⟨ha, -⟩
  · exact ht
  · rw [h] at ha; exact absurd ha (by simp)

theorem guardianTick_attempt_ge (t : Project) (g : Option Int) (inp : GuardInput)
    (h : (guardianTick t g inp).2.2 = true) : g.getD 0 ≤ inp.now := by
  rcases guardianTick_spec t g inp with ⟨hf, -⟩ | ⟨-, hge, -⟩
  · rw [h] at hf; exact absurd hf (by simp)
  · exact hge

theorem guardFailPatch_row (t : Project) (n now : Int) (hid : jsTrim t.id = t.id) :
    guardFailPatch t (jsTrim t.id) n now =
      { t with restart_count := some n, updated_date := some now } := by
  rw [hid, guardFailPatch, if_pos rfl]

theorem max_restarts_zero_no_cap (t : Project) (h : t.max_restarts = some 0) :
    ¬(0 < t.max_restarts.getD 5 ∧ t.max_restarts.getD 5 ≤ t.restart_count.getD 0) := by
  simp [h]


/-- C4: cap enforcement.  First conjunct: for a task whose stored
`max_restarts` is `N > 0` (and whose id carries no surrounding
whitespace, so the guardian's count patch lands on the row), any run of
ticks whose restart attempts all fail issues at most
`N - restart_count` attempts — at most `N` from a fresh counter — after
which the guardian stops attempting.  Second conjunct: when
`max_restarts = 0` the cap never suppresses an attempt — any tick that
passes the eligibility, running and next-attempt-time gates attempts,
whatever `restart_count` is. -/
theorem guardian_cap_enforcement :
    (∀ (inputs : List GuardInput) (t : Project) (g : Option Int) (N : Int),
      t.max_restarts = some N → 0 < N → jsTrim t.id = t.id →
      (∀ inp ∈ inputs, inp.attemptOk = false) →
      ((guardianAttemptList t g inputs).length : Int) ≤
        max 0 (N - t.restart_count.getD 0)) ∧
    (∀ (t : Project) (g : Option Int) (inp : GuardInput),
      t.max_restarts = some 0 → t.auto_restart = true → t.manual_stopped = false →
      t.was_running_before_shutdown = true → jsTrim t.id ≠ "" →
      inp.running = false → g.getD 0 ≤ inp.now →
      (guardianTick t g inp).2.2 = true) := by
  constructor
  · intro inputs
    induction inputs with
    | nil => intro t g N hN hpos hid hall; simp [guardianAttemptList]
    | cons inp rest ih =>
        intro t g N hN hpos hid hall
        have hallrest : ∀ i ∈ rest, i.attemptOk = false :=
          fun i hi => hall i (List.mem_cons_of_mem _ hi)
        by_cases hatt : (guardianTick t g inp).2.2 = true
        · rcases guardianTick_spec t g inp with ⟨hf, -⟩ | ⟨-, -, hcap, -, -, hcase⟩
          · rw [hatt] at hf; exact absurd hf (by simp)
          rcases hcase with ⟨hok, -⟩ | ⟨-, heq⟩
          · exact absurd hok (by simp [hall inp (List.mem_cons_self inp rest)])
          · have hc : t.restart_count.getD 0 < N := by
              rcases not_and_or.1 hcap with hbad | hlt
              · rw [hN] at hbad; simp at hbad; omega
              · rw [hN] at hlt; simpa using lt_of_not_le hlt
            have hrow := guardFailPatch_row t (t.restart_count.getD 0 + 1) inp.now hid
            have ihr := ih (guardFailPatch t (jsTrim t.id) (t.restart_count.getD 0 + 1)
                inp.now)
              (some (inp.now + max 1 (t.restart_interval.getD 15) * 1000)) N
              (by rw [hrow]; exact hN) hpos (by rw [hrow]; exact hid) hallrest
            have ihr' : ((guardianAttemptList
                (guardFailPatch t (jsTrim t.id) (t.restart_count.getD 0 + 1) inp.now)
                (some (inp.now + max 1 (t.restart_interval.getD 15) * 1000))
                rest).length : Int) ≤ N - (t.restart_count.getD 0 + 1) := by
              rw [hrow] at ihr ⊢
              have e1 : max (0 : Int) (N - (t.restart_count.getD 0 + 1)) =
                  N - (t.restart_count.getD 0 + 1) := max_eq_right (by omega)
              simpa [e1] using ihr
            simp only [guardianAttemptList, heq, if_pos, List.length_cons]
            have e2 : max (0 : Int) (N - t.restart_count.getD 0) =
                N - t.restart_count.getD 0 := max_eq_right (by omega)
            rw [e2]
            push_cast
            omega
        · have hna : (guardianTick t g inp).2.2 = false := by
            revert hatt; cases (guardianTick t g inp).2.2 <;> simp
          have ht := guardianTick_noattempt_task t g inp hna
          simp only [guardianAttemptList, hna, Bool.false_eq_true, if_false]
          rw [ht]
          exact ih t _ N hN hpos hid hallrest
  · intro t g inp hN ha hm hw hid hr htime
    simp only [guardianTick]
    rw [if_neg hid, if_neg (by simp [ha, hm, hw]),
      if_neg (max_restarts_zero_no_cap t hN), if_neg (by simp [hr]),
      if_neg (by omega)]
    split
    · rfl
    · rfl

/-- A guarded task with `max_restarts = 2` and one with `max_restarts = 0`. -/
def cappedDemo : Project :=
  { id := "proj_c", start_command := "false", auto_restart := true,
    was_running_before_shutdown := true, max_restarts := some 2,
    restart_interval := some 1, restart_count := some 0 }

def unlimitedDemo : Project :=
  { id := "proj_u", start_command := "false", auto_restart := true,
    was_running_before_shutdown := true, max_restarts := some 0,
    restart_interval := some 1, restart_count := some 99 }

theorem guardian_cap_enforcement_witness :
    ((guardianAttemptList cappedDemo none
        [⟨0, false, false⟩, ⟨5000, false, false⟩, ⟨10000, false, false⟩]).length : Int) ≤
      max 0 (2 - cappedDemo.restart_count.getD 0) ∧
    (guardianTick unlimitedDemo (some 3) ⟨5, false, false⟩).2.2 = true :=
  ⟨guardian_cap_enforcement.1 [⟨0, false, false⟩, ⟨5000, false, false⟩, ⟨10000, false, false⟩]
      cappedDemo none 2 rfl (by decide) (by decide)
      (by intro i hi; fin_cases hi <;> rfl),
   guardian_cap_enforcement.2 unlimitedDemo (some 3) ⟨5, false, false⟩ rfl rfl rfl rfl
      (by decide) rfl (by decide)⟩

/-- The eligibility gates of the guardian loop that must hold for a task
row to be considered at all: `auto_restart`, not `manual_stopped`,
`was_running_before_shutdown`, and a non-blank trimmed id. -/
def GuardEligible (t : Project) : Prop :=
  t.auto_restart = true ∧ t.manual_stopped = false ∧
    t.was_running_before_shutdown = true ∧ jsTrim t.id ≠ ""

/-- `max(1, restart_interval) seconds` in milliseconds — the backoff the
guardian applies after a failed attempt. -/
def backoffMs (t : Project) : Int :=
  max 1 (t.restart_interval.getD 15) * 1000

theorem guardianTick_preserves_eligible (t : Project) (g : Option Int) (inp : GuardInput)
    (he : GuardEligible t) :
    GuardEligible (guardianTick t g inp).1 ∧
      (guardianTick t g inp).1.restart_interval = t.restart_interval := by
  obtain ⟨ha, hm, hw, hid⟩ := he
  rcases guardianTick_spec t g inp with ⟨-, ht, -⟩ | ⟨-, -, -, -, -, ⟨-, heq⟩ | ⟨-, heq⟩⟩
  · rw [ht]; exact ⟨⟨ha, hm, hw, hid⟩, rfl⟩
  · rw [heq]
    simp only [guardSuccessPatch]
    split
    · exact ⟨⟨ha, rfl, rfl, by simpa using hid⟩, rfl⟩
    · exact ⟨⟨ha, hm, hw, hid⟩, rfl⟩
  · rw [heq]
    simp only [guardFailPatch]
    split
    · exact ⟨⟨ha, hm, hw, by simpa using hid⟩, rfl⟩
    · exact ⟨⟨ha, hm, hw, hid⟩, rfl⟩

theorem guardianTick_skip_keeps (t : Project) (g : Option Int) (inp : GuardInput)
    (he : GuardEligible t) (hr : inp.running = false)
    (hna : ¬(guardianTick t g inp).2.2 = true) :
    guardianTick t g inp = (t, g, false) := by
  obtain ⟨ha, hm, hw, hid⟩ := he
  simp only [guardianTick] at hna ⊢
  rw [if_neg hid] at hna ⊢
  rw [if_neg (by simp [ha, hm, hw])] at hna ⊢
  by_cases hcap : 0 < t.max_restarts.getD 5 ∧ t.max_restarts.getD 5 ≤ t.restart_count.getD 0
  · rw [if_pos hcap]
  · rw [if_neg hcap] at hna ⊢
    rw [if_neg (by simp [hr])] at hna ⊢
    by_cases htime : inp.now < g.getD 0
    · rw [if_pos htime]
    · rw [if_neg htime] at hna
      exfalso
      apply hna
      split
      · rfl
      · rfl

theorem guardian_first_attempt_ge (inputs : List GuardInput) :
    ∀ (t : Project) (n : Int), GuardEligible t →
      (∀ inp ∈ inputs, inp.running = false) →
      ∀ a ∈ (guardianAttemptList t (some n) inputs).head?, n ≤ a.now := by
  induction inputs with
  | nil => intro t n _ _ a h; simp [guardianAttemptList] at h
  | cons inp rest ih =>
      intro t n he hr a h
      by_cases hatt : (guardianTick t (some n) inp).2.2 = true
      · have hge := guardianTick_attempt_ge t (some n) inp hatt
        simp only [guardianAttemptList, hatt, if_pos, List.head?_cons,
          Option.mem_def, Option.some_inj] at h
        rw [← h]
        simpa using hge
      · have hskip := guardianTick_skip_keeps t (some n) inp he
          (hr inp (List.mem_cons_self inp rest)) hatt
        simp only [guardianAttemptList, hskip] at h
        exact ih t n he (fun i hi => hr i (List.mem_cons_of_mem _ hi)) a h

theorem guardian_backoff_chain (B : Int) (inputs : List GuardInput) :
    ∀ (t : Project) (g : Option Int), GuardEligible t → backoffMs t = B →
      (∀ inp ∈ inputs, inp.running = false) →
      List.Chain' (fun a b => a.attemptOk = false → a.now + B ≤ b.now)
        (guardianAttemptList t g inputs) := by
  induction inputs with
  | nil => intro t g _ _ _; simp [guardianAttemptList]
  | cons inp rest ih =>
      intro t g he hB hr
      have hrrest : ∀ i ∈ rest, i.running = false :=
        fun i hi => hr i (List.mem_cons_of_mem _ hi)
      by_cases hatt : (guardianTick t g inp).2.2 = true
      · have hpres := guardianTick_preserves_eligible t g inp he
        rcases guardianTick_spec t g inp with ⟨hf, -⟩ | ⟨-, -, -, -, -, hcase⟩
        · rw [hatt] at hf; exact absurd hf (by simp)
        rcases hcase with ⟨hok, heq⟩ | ⟨hfail, heq⟩
        · have he2 : GuardEligible (guardSuccessPatch t (jsTrim t.id) inp.now) := by
            have h1 := hpres.1; rw [heq] at h1; exact h1
          have hB2 : backoffMs (guardSuccessPatch t (jsTrim t.id) inp.now) = B := by
            have h2 := hpres.2; rw [heq] at h2
            rw [backoffMs, h2]; exact hB
          simp only [guardianAttemptList, heq, if_pos]
          rw [List.chain'_cons']
          refine ⟨?_, ih _ _ he2 hB2 hrrest⟩
          intro b _ hfa
          rw [hok] at hfa
          cases hfa
        · have he2 : GuardEligible
              (guardFailPatch t (jsTrim t.id) (t.restart_count.getD 0 + 1) inp.now) := by
            have h1 := hpres.1; rw [heq] at h1; exact h1
          have hB2 : backoffMs
              (guardFailPatch t (jsTrim t.id) (t.restart_count.getD 0 + 1) inp.now) = B := by
            have h2 := hpres.2; rw [heq] at h2
            rw [backoffMs, h2]; exact hB
          simp only [guardianAttemptList, heq, if_pos]
          rw [List.chain'_cons']
          refine ⟨?_, ih _ _ he2 hB2 hrrest⟩
          intro b hb _
          have hge := guardian_first_attempt_ge rest
            (guardFailPatch t (jsTrim t.id) (t.restart_count.getD 0 + 1) inp.now)
            (inp.now + max 1 (t.restart_interval.getD 15) * 1000) he2 hrrest b hb
          have hBt : backoffMs t = max 1 (t.restart_interval.getD 15) * 1000 := rfl
          rw [← hB, hBt]
          exact hge
      · have hskip := guardianTick_skip_keeps t g inp he
          (hr inp (List.mem_cons_self inp rest)) hatt
        simp only [guardianAttemptList, hskip]
        exact ih t g he hB hrrest

/-- C5: backoff.  In any run of guardian ticks over an eligible task
(`auto_restart`, not `manual_stopped`, `was_running_before_shutdown`,
non-blank id) that stays non-running at every tick, any two consecutive
restart attempts whose first fails are separated by at least
`max(1, restart_interval)` seconds of wall-clock: the failure stamps the
next-attempt time `now + max(1, restart_interval) * 1000` ms and every
earlier tick is skipped. -/
theorem guardian_backoff (t : Project) (inputs : List GuardInput)
    (he : GuardEligible t) (hr : ∀ inp ∈ inputs, inp.running = false) :
    List.Chain' (fun a b => a.attemptOk = false → a.now + backoffMs t ≤ b.now)
      (guardianAttemptList t none inputs) :=
  guardian_backoff_chain (backoffMs t) inputs t none he rfl hr

def backoffDemo : Project :=
  { id := "proj_b", start_command := "false", auto_restart := true,
    was_running_before_shutdown := true, max_restarts := some 5,
    restart_interval := some 7, restart_count := some 0 }

theorem guardian_backoff_witness :
    List.Chain' (fun a b => a.attemptOk = false → a.now + backoffMs backoffDemo ≤ b.now)
      (guardianAttemptList backoffDemo none
        [⟨0, false, false⟩, ⟨5000, false, false⟩, ⟨10000, false, false⟩]) :=
  guardian_backoff backoffDemo
    [⟨0, false, false⟩, ⟨5000, false, false⟩, ⟨10000, false, false⟩]
    ⟨rfl, rfl, rfl, by decide⟩ (by intro i hi; fin_cases hi <;> rfl)

def manualStoppedDemo : Project :=
  { id := "proj_m", start_command := "npm start", auto_restart := true,
    was_running_before_shutdown := true, manual_stopped := true,
    max_restarts := some 5, restart_interval := some 1, restart_count := some 0 }

theorem guardian_manual_stop_suppression_witness :
    guardianAttemptList manualStoppedDemo none
      [⟨0, false, true⟩, ⟨5000, false, true⟩, ⟨10000, false, true⟩] = [] :=
  guardian_manual_stop_suppression
    [⟨0, false, true⟩, ⟨5000, false, true⟩, ⟨10000, false, true⟩]
    manualStoppedDemo none rfl

/-- An eligible guarded task whose stored `updated_date` parses to 100 ms. -/
def guardedDemo : Project :=
  { id := "proj_g", start_command := "npm start", auto_restart := true,
    was_running_before_shutdown := true, max_restarts := some 5,
    restart_interval := some 15, restart_count := some 0,
    updated_date := some 100 }

/-- C6 evaluated at a failing input: a guardian tick at t = 999000 ms on
`guardedDemo` (task down, restart attempt fails) increments
`restart_count` via `patchProject(id, {restart_count: 1})` — but because
the call passes no `skipUpdatedDate` option, the row's `updated_date` is
restamped to the tick time instead of staying at 100.  The same happens
through the store-level `patchProject` itself.  The `opts.skipUpdatedDate`
escape hatch exists in `patchProject` precisely for such internal
bookkeeping, yet no caller ever passes it. -/
theorem guardian_counter_patch_restamps_updated_date :
    (guardianTick guardedDemo none ⟨999000, false, false⟩).1.restart_count = some 1 ∧
    (guardianTick guardedDemo none ⟨999000, false, false⟩).1.updated_date = some 999000 ∧
    guardedDemo.updated_date = some 100 ∧
    (patchProject [guardedDemo] "proj_g" { restart_count := some 1 } false 999000).map
        (fun t => t.updated_date) = [some 999000] := by
  refine ⟨rfl, rfl, rfl, rfl⟩

theorem guardSuccessPatch_row (t : Project) (now : Int) (hid : jsTrim t.id = t.id) :
    guardSuccessPatch t (jsTrim t.id) now =
      { t with restart_count := some 0, manual_stopped := false,
               last_started := some now, was_running_before_shutdown := true,
               updated_date := some now } := by
  rw [hid, guardSuccessPatch, if_pos rfl]

theorem guardianTick_success_resets (t : Project) (g : Option Int) (inp : GuardInput)
    (hid : jsTrim t.id = t.id) (hatt : (guardianTick t g inp).2.2 = true)
    (hok : inp.attemptOk = true) :
    (guardianTick t g inp).1.restart_count = some 0 := by
  rcases guardianTick_spec t g inp with ⟨hf, -⟩ | ⟨-, -, -, -, -, ⟨-, heq⟩ | ⟨hbad, -⟩⟩
  · rw [hatt] at hf; exact absurd hf (by simp)
  · rw [heq, guardSuccessPatch_row t inp.now hid]
  · rw [hok] at hbad; exact absurd hbad (by simp)

theorem guardianTick_failure_increments (t : Project) (g : Option Int) (inp : GuardInput)
    (hid : jsTrim t.id = t.id) (hatt : (guardianTick t g inp).2.2 = true)
    (hfail : inp.attemptOk = false) :
    (guardianTick t g inp).1.restart_count = some (t.restart_count.getD 0 + 1) := by
  rcases guardianTick_spec t g inp with ⟨hf, -⟩ | ⟨-, -, -, -, -, ⟨hbad, -⟩ | ⟨-, heq⟩⟩
  · rw [hatt] at hf; exact absurd hf (by simp)
  · rw [hfail] at hbad; exact absurd hbad (by simp)
  · rw [heq, guardFailPatch_row t _ inp.now hid]

theorem patchProject_restart_count_frame (items : List Project) (id : String)
    (p : ProjectPatch) (skip : Bool) (now : Int) (hp : p.restart_count = none) :
    ∀ k : Nat, ((patchProject items id p skip now)[k]?).map (fun t => t.restart_count) =
      (items[k]?).map (fun t => t.restart_count) := by
  intro k
  rcases hfi : items.findIdx? (fun q => q.id = id) with _ | i
  · simp [patchProject, hfi]
  · rcases hge : items[i]? with _ | old
    · simp [patchProject, hfi, hge]
    · obtain ⟨hilen, hold⟩ := List.getElem?_eq_some_iff.1 hge
      simp only [patchProject, hfi, hge, writeProjectsFile, List.getElem?_map,
        List.getElem?_set, Option.map_map]
      by_cases hk : i = k
      · subst hk
        rw [if_pos rfl, if_pos hilen, hge]
        cases skip <;>
          simp [sanitizeProject, applyPatch, hp, Function.comp, ← hold]
      · rw [if_neg hk]
        rfl

theorem update_restart_count_frame (items : List Project) (id : String)
    (data : ProjectPatch) (now : Int) (hp : data.restart_count = none) :
    ∀ k : Nat, ((updateProjectHandler items id data now)[k]?).map (fun t => t.restart_count) =
      (items[k]?).map (fun t => t.restart_count) := by
  intro k
  rcases hfi : items.findIdx? (fun q => q.id = id) with _ | i
  · simp [updateProjectHandler, hfi]
  · rcases hge : items[i]? with _ | old
    · simp [updateProjectHandler, hfi, hge]
    · obtain ⟨hilen, hold⟩ := List.getElem?_eq_some_iff.1 hge
      simp only [updateProjectHandler, hfi, hge, writeProjectsFile, List.getElem?_map,
        List.getElem?_set, Option.map_map]
      by_cases hk : i = k
      · subst hk
        rw [if_pos rfl, if_pos hilen, hge]
        simp [sanitizeProject, applyPatch, hp, Function.comp, ← hold]
      · rw [if_neg hk]
        rfl

/-- The body the dashboard's `handleStart` sends through
`updateProject(id, …)` once the started task passes its health check
(`waitForRunningStatus` true). -/
def startSuccessData (lastStarted : Int) : ProjectPatch :=
  { last_started := some lastStarted, manual_stopped := some false,
    restart_count := some 0 }

theorem update_start_success_resets (items : List Project) (id : String)
    (lastStarted now : Int) (hnd : (items.map (fun t => t.id)).Nodup) :
    ∀ t' ∈ updateProjectHandler items id (startSuccessData lastStarted) now,
      t'.id = id → t'.restart_count = some 0 := by
  intro t' hmem hid
  rcases hfi : items.findIdx? (fun q => q.id = id) with _ | i
  · rw [updateProjectHandler, hfi] at hmem
    have := (List.findIdx?_eq_none_iff.1 hfi) t' hmem
    simp [hid] at this
  · obtain ⟨hilen, hpi, -⟩ := List.findIdx?_eq_some_iff_getElem.1 hfi
    have hgi : items[i]? = some items[i] := List.getElem?_eq_some_iff.2 ⟨hilen, rfl⟩
    simp only [updateProjectHandler, hfi, hgi, writeProjectsFile, List.mem_map] at hmem
    obtain ⟨s, hs, rfl⟩ := hmem
    obtain ⟨k, hk, hsk⟩ := List.mem_iff_getElem.1 hs
    rw [List.getElem_set] at hsk
    by_cases hik : i = k
    · rw [if_pos hik] at hsk
      rw [← hsk]
      rfl
    · rw [if_neg hik] at hsk
      exfalso
      have hklen : k < items.length := by simpa using hk
      have hkid : items[k].id = id := by
        rw [← hsk] at hid
        exact hid
      have hiid : items[i].id = id := by simpa using hpi
      have hget : (items.map (fun t => t.id)).get ⟨i, by simpa using hilen⟩ =
          (items.map (fun t => t.id)).get ⟨k, by simpa using hklen⟩ := by
        simp only [List.get_eq_getElem, List.getElem_map]
        rw [hkid, hiid]
      have hinj := List.nodup_iff_injective_get.1 hnd hget
      exact hik (congrArg Fin.val hinj)

/-- C9: the persisted `restart_count` lifecycle.  (1) A successful user
start — the dashboard's `handleStart` success path, which PUTs
`{last_started, manual_stopped:false, restart_count:0}` — resets the
started task's stored counter to 0 (assuming, as `readProjectsFile`
guarantees, that stored ids are unique).  (2) A guardian restart success
resets it to 0.  (3) A guardian failed attempt increments it by one
(from the `typeof`-defaulted current value).  (4)/(5) The other store
writers of the start flow — `patchProject` calls and PUTs whose bodies
carry no `restart_count` key, such as the start endpoint's
`{was_running_before_shutdown:true}` patch or the stop flow's
`{manual_stopped:true}` update — leave every row's `restart_count`
unchanged. -/
theorem restart_count_reset_policy :
    (∀ (items : List Project) (id : String) (lastStarted now : Int),
      (items.map (fun t => t.id)).Nodup →
      ∀ t' ∈ updateProjectHandler items id (startSuccessData lastStarted) now,
        t'.id = id → t'.restart_count = some 0) ∧
    (∀ (t : Project) (g : Option Int) (inp : GuardInput),
      jsTrim t.id = t.id → (guardianTick t g inp).2.2 = true → inp.attemptOk = true →
      (guardianTick t g inp).1.restart_count = some 0) ∧
    (∀ (t : Project) (g : Option Int) (inp : GuardInput),
      jsTrim t.id = t.id → (guardianTick t g inp).2.2 = true → inp.attemptOk = false →
      (guardianTick t g inp).1.restart_count = some (t.restart_count.getD 0 + 1)) ∧
    (∀ (items : List Project) (id : String) (p : ProjectPatch) (skip : Bool) (now : Int),
      p.restart_count = none → ∀ k : Nat,
      ((patchProject items id p skip now)[k]?).map (fun t => t.restart_count) =
        (items[k]?).map (fun t => t.restart_count)) ∧
    (∀ (items : List Project) (id : String) (data : ProjectPatch) (now : Int),
      data.restart_count = none → ∀ k : Nat,
      ((updateProjectHandler items id data now)[k]?).map (fun t => t.restart_count) =
        (items[k]?).map (fun t => t.restart_count)) :=
  ⟨update_start_success_resets, guardianTick_success_resets,
   guardianTick_failure_increments, patchProject_restart_count_frame,
   update_restart_count_frame⟩

theorem restart_count_reset_policy_witness :
    (∀ t' ∈ updateProjectHandler [guardedDemo] "proj_g" (startSuccessData 500) 600,
        t'.id = "proj_g" → t'.restart_count = some 0) ∧
    (guardianTick guardedDemo none ⟨999000, false, true⟩).1.restart_count = some 0 ∧
    ((patchProject [guardedDemo] "proj_g"
        { was_running_before_shutdown := some true } false 700)[0]?).map
      (fun t => t.restart_count) = ([guardedDemo][0]?).map (fun t => t.restart_count) :=
  ⟨restart_count_reset_policy.1 [guardedDemo] "proj_g" 500 600 (by decide),
   restart_count_reset_policy.2.1 guardedDemo none ⟨999000, false, true⟩ (by decide)
     (by decide) rfl,
   restart_count_reset_policy.2.2.2.1 [guardedDemo] "proj_g"
     { was_running_before_shutdown := some true } false 700 rfl 0⟩

theorem lookupA_eq_none_iff (acc : List (String × Project)) (key : String) :
    lookupA acc key = none ↔ key ∉ acc.map Prod.fst := by
  induction acc with
  | nil => simp [lookupA]
  | cons kv rest ih =>
      obtain ⟨k, v⟩ := kv
      by_cases hk : k = key
      · subst hk; simp [lookupA]
      · simp [lookupA, hk, ih, Ne.symm hk]

theorem lookupA_mem (acc : List (String × Project)) (key : String) (v : Project)
    (h : lookupA acc key = some v) : (key, v) ∈ acc := by
  induction acc with
  | nil => simp [lookupA] at h
  | cons kv rest ih =>
      obtain ⟨k, w⟩ := kv
      by_cases hk : k = key
      · subst hk
        rw [lookupA, if_pos rfl, Option.some_inj] at h
        subst h
        exact List.mem_cons_self _ _
      · rw [lookupA, if_neg hk] at h
        exact List.mem_cons_of_mem _ (ih h)

theorem mapUpdate_map_fst (acc : List (String × Project)) (key : String) (nv : Project) :
    (mapUpdate acc key nv).map Prod.fst = acc.map Prod.fst := by
  induction acc with
  | nil => rfl
  | cons kv rest ih =>
      obtain ⟨k, v⟩ := kv
      by_cases hk : k = key
      · simp [mapUpdate, hk]
      · simp [mapUpdate, hk, ih]

theorem mem_mapUpdate (acc : List (String × Project)) (key : String) (nv : Project)
    (hnd : (acc.map Prod.fst).Nodup) :
    ∀ kv ∈ mapUpdate acc key nv, kv = (key, nv) ∨ (kv ∈ acc ∧ kv.1 ≠ key) := by
  induction acc with
  | nil => intro kv h; simp [mapUpdate] at h
  | cons hd rest ih =>
      obtain ⟨k, v⟩ := hd
      simp only [List.map_cons, List.nodup_cons] at hnd
      intro kv hkv
      by_cases hk : k = key
      · subst hk
        rw [mapUpdate, if_pos rfl] at hkv
        rcases List.mem_cons.1 hkv with rfl | hrest
        · exact Or.inl rfl
        · refine Or.inr ⟨List.mem_cons_of_mem _ hrest, ?_⟩
          intro hbad
          exact hnd.1 (by rw [← hbad]; exact List.mem_map_of_mem Prod.fst hrest)
      · rw [mapUpdate, if_neg hk] at hkv
        rcases List.mem_cons.1 hkv with rfl | hrest
        · exact Or.inr ⟨List.mem_cons_self _ _, hk⟩
        · rcases ih hnd.2 kv hrest with h | ⟨hmem, hne⟩
          · exact Or.inl h
          · exact Or.inr ⟨List.mem_cons_of_mem _ hmem, hne⟩

theorem count_mapUpdate (acc : List (String × Project)) (key : String) (nv : Project)
    (t : Project) :
    ((mapUpdate acc key nv).map Prod.snd).count t ≤
      (acc.map Prod.snd).count t + (if t = nv then 1 else 0) := by
  induction acc with
  | nil => simp [mapUpdate]
  | cons hd rest ih =>
      obtain ⟨k, v⟩ := hd
      by_cases hk : k = key
      · subst hk
        rw [mapUpdate, if_pos rfl]
        simp only [List.map_cons, List.count_cons, beq_iff_eq]
        split_ifs <;> first | omega | (exfalso; simp_all)
      · rw [mapUpdate, if_neg hk]
        simp only [List.map_cons, List.count_cons]
        have := ih
        omega

theorem keys_nodup_unique (acc : List (String × Project))
    (hnd : (acc.map Prod.fst).Nodup) (k : String) (a b : Project)
    (ha : (k, a) ∈ acc) (hb : (k, b) ∈ acc) : a = b := by
  induction acc with
  | nil => simp at ha
  | cons hd rest ih =>
      simp only [List.map_cons, List.nodup_cons] at hnd
      rcases List.mem_cons.1 ha with ha1 | ha'
      · rcases List.mem_cons.1 hb with hb1 | hb'
        · have hab : (k, a) = (k, b) := ha1.trans hb1.symm
          exact (Prod.ext_iff.1 hab).2
        · exfalso
          apply hnd.1
          have hk1 : hd.1 = k := by rw [← ha1]
          rw [hk1]
          exact List.mem_map.2 ⟨(k, b), hb', rfl⟩
      · rcases List.mem_cons.1 hb with hb1 | hb'
        · exfalso
          apply hnd.1
          have hk1 : hd.1 = k := by rw [← hb1]
          rw [hk1]
          exact List.mem_map.2 ⟨(k, a), ha', rfl⟩
        · exact ih hnd.2 ha' hb'

/-- Invariant of the `dedupeProjects` fold over the processed prefix
`seen`: every map entry is keyed by its value's trimmed id (non-blank),
holds an element of `seen` that is latest-dated among same-key elements
of `seen`; keys are unique; the held values form a sub-multiset of
`seen`; and every element of `seen` with a non-blank trimmed id has its
key present in the map. -/
def AccWF (seen : List Project) (acc : List (String × Project)) : Prop :=
  (∀ kv ∈ acc, kv.1 ≠ "" ∧ jsTrim kv.2.id = kv.1 ∧ kv.2 ∈ seen ∧
     ∀ q ∈ seen, jsTrim q.id = kv.1 → updatedTime q ≤ updatedTime kv.2) ∧
  (acc.map Prod.fst).Nodup ∧
  (∀ t : Project, (acc.map Prod.snd).count t ≤ seen.count t) ∧
  (∀ q ∈ seen, jsTrim q.id ≠ "" → jsTrim q.id ∈ acc.map Prod.fst)

theorem dedupeStep_wf (seen : List Project) (acc : List (String × Project)) (p : Project)
    (h : AccWF seen acc) : AccWF (seen ++ [p]) (dedupeStep acc p) := by
  obtain ⟨h1, h2, h3, h4⟩ := h
  by_cases hid : jsTrim p.id = ""
  · have hstep : dedupeStep acc p = acc := by simp [dedupeStep, hid]
    rw [hstep]
    refine ⟨?_, h2, ?_, ?_⟩
    · intro kv hkv
      obtain ⟨e1, e2, e3, e4⟩ := h1 kv hkv
      refine ⟨e1, e2, List.mem_append_left _ e3, ?_⟩
      intro q hq hqk
      rcases List.mem_append.1 hq with hq | hq
      · exact e4 q hq hqk
      · rw [List.mem_singleton.1 hq] at hqk
        rw [hid] at hqk
        exact absurd hqk.symm e1
    · intro t
      rw [List.count_append]
      have := h3 t
      omega
    · intro q hq hql
      rcases List.mem_append.1 hq with hq | hq
      · exact h4 q hq hql
      · rw [List.mem_singleton.1 hq] at hql
        exact absurd hid hql
  · rcases hlk : lookupA acc (jsTrim p.id) with _ | prev
    · have hnotkey : jsTrim p.id ∉ acc.map Prod.fst := (lookupA_eq_none_iff _ _).1 hlk
      have hstep : dedupeStep acc p = acc ++ [(jsTrim p.id, p)] := by
        simp [dedupeStep, hid, hlk]
      rw [hstep]
      refine ⟨?_, ?_, ?_, ?_⟩
      · intro kv hkv
        rcases List.mem_append.1 hkv with hkv | hkv
        · obtain ⟨e1, e2, e3, e4⟩ := h1 kv hkv
          refine ⟨e1, e2, List.mem_append_left _ e3, ?_⟩
          intro q hq hqk
          rcases List.mem_append.1 hq with hq | hq
          · exact e4 q hq hqk
          · rw [List.mem_singleton.1 hq] at hqk
            exfalso
            apply hnotkey
            rw [hqk]
            exact List.mem_map.2 ⟨kv, hkv, rfl⟩
        · rw [List.mem_singleton.1 hkv]
          refine ⟨hid, rfl, List.mem_append_right _ (List.mem_singleton.2 rfl), ?_⟩
          intro q hq hqk
          have hqk' : jsTrim q.id = jsTrim p.id := hqk
          rcases List.mem_append.1 hq with hq | hq
          · exfalso
            apply hnotkey
            rw [← hqk']
            exact h4 q hq (by rw [hqk']; exact hid)
          · rw [List.mem_singleton.1 hq]
      · rw [List.map_append, List.nodup_append]
        refine ⟨h2, List.nodup_singleton _, ?_⟩
        intro a ha hb
        have hb' : a = jsTrim p.id := by simpa using hb
        rw [hb'] at ha
        exact hnotkey ha
      · intro t
        rw [List.map_append, List.count_append, List.count_append]
        have := h3 t
        simp only [List.map_cons, List.map_nil]
        omega
      · intro q hq hql
        rw [List.map_append]
        rcases List.mem_append.1 hq with hq | hq
        · exact List.mem_append_left _ (h4 q hq hql)
        · rw [List.mem_singleton.1 hq]
          simp
    · have hprev : (jsTrim p.id, prev) ∈ acc := lookupA_mem _ _ _ hlk
      by_cases hcmp : updatedTime prev < updatedTime p
      · have hstep : dedupeStep acc p = mapUpdate acc (jsTrim p.id) p := by
          simp [dedupeStep, hid, hlk, hcmp]
        rw [hstep]
        refine ⟨?_, ?_, ?_, ?_⟩
        · intro kv hkv
          rcases mem_mapUpdate acc (jsTrim p.id) p h2 kv hkv with hkv1 | ⟨hkv2, hkne⟩
          · rw [hkv1]
            refine ⟨hid, rfl, List.mem_append_right _ (List.mem_singleton.2 rfl), ?_⟩
            intro q hq hqk
            rcases List.mem_append.1 hq with hq | hq
            · obtain ⟨-, -, -, e4⟩ := h1 (jsTrim p.id, prev) hprev
              exact le_trans (e4 q hq hqk) (le_of_lt hcmp)
            · rw [List.mem_singleton.1 hq]
          · obtain ⟨e1, e2, e3, e4⟩ := h1 kv hkv2
            refine ⟨e1, e2, List.mem_append_left _ e3, ?_⟩
            intro q hq hqk
            rcases List.mem_append.1 hq with hq | hq
            · exact e4 q hq hqk
            · rw [List.mem_singleton.1 hq] at hqk
              exact absurd hqk (Ne.symm hkne)
        · rw [mapUpdate_map_fst]
          exact h2
        · intro t
          have hcu := count_mapUpdate acc (jsTrim p.id) p t
          have hse := h3 t
          rw [List.count_append]
          have hone : (if t = p then 1 else 0) ≤ List.count t [p] := by
            by_cases hpt : t = p
            · subst hpt
              simp
            · simp [hpt]
          omega
        · intro q hq hql
          rw [mapUpdate_map_fst]
          rcases List.mem_append.1 hq with hq | hq
          · exact h4 q hq hql
          · rw [List.mem_singleton.1 hq]
            exact List.mem_map.2 ⟨(jsTrim p.id, prev), hprev, rfl⟩
      · have hstep : dedupeStep acc p = acc := by
          simp [dedupeStep, hid, hlk, hcmp]
        rw [hstep]
        refine ⟨?_, h2, ?_, ?_⟩
        · intro kv hkv
          obtain ⟨e1, e2, e3, e4⟩ := h1 kv hkv
          refine ⟨e1, e2, List.mem_append_left _ e3, ?_⟩
          intro q hq hqk
          rcases List.mem_append.1 hq with hq | hq
          · exact e4 q hq hqk
          · rw [List.mem_singleton.1 hq] at hqk ⊢
            have hkv' : (jsTrim p.id, kv.2) ∈ acc := by
              have hkveq : kv = (jsTrim p.id, kv.2) := by
                rw [Prod.ext_iff]
                exact ⟨hqk.symm, rfl⟩
              rw [← hkveq]
              exact hkv
            have heqp : kv.2 = prev :=
              keys_nodup_unique acc h2 (jsTrim p.id) kv.2 prev hkv' hprev
            rw [heqp]
            exact not_lt.1 hcmp
        · intro t
          rw [List.count_append]
          have := h3 t
          omega
        · intro q hq hql
          rcases List.mem_append.1 hq with hq | hq
          · exact h4 q hq hql
          · rw [List.mem_singleton.1 hq]
            exact List.mem_map.2 ⟨(jsTrim p.id, prev), hprev, rfl⟩

theorem dedupe_foldl_wf (items : List Project) :
    ∀ (seen : List Project) (acc : List (String × Project)), AccWF seen acc →
      AccWF (seen ++ items) (items.foldl dedupeStep acc) := by
  induction items with
  | nil => intro seen acc h; simpa using h
  | cons p rest ih =>
      intro seen acc h
      have hstep := dedupeStep_wf seen acc p h
      have hrest := ih (seen ++ [p]) (dedupeStep acc p) hstep
      simpa [List.append_assoc] using hrest

theorem dedupe_wf (items : List Project) : AccWF items (items.foldl dedupeStep []) := by
  have h0 : AccWF [] [] := by
    refine ⟨?_, ?_, ?_, ?_⟩
    · intro kv hkv; simp at hkv
    · simp
    · intro t; simp
    · intro q hq; simp at hq
  simpa using dedupe_foldl_wf items [] [] h0

theorem dedupeProjects_count_le (items : List Project) (t : Project) :
    (dedupeProjects items).count t ≤ items.count t :=
  (dedupe_wf items).2.2.1 t

theorem dedupeProjects_mem (items : List Project) {t : Project}
    (h : t ∈ dedupeProjects items) : t ∈ items := by
  obtain ⟨kv, hkv, rfl⟩ := List.mem_map.1 h
  exact ((dedupe_wf items).1 kv hkv).2.2.1

theorem dedupeProjects_max (items : List Project) {t : Project}
    (h : t ∈ dedupeProjects items) :
    ∀ p ∈ items, jsTrim p.id = jsTrim t.id → updatedTime p ≤ updatedTime t := by
  obtain ⟨kv, hkv, rfl⟩ := List.mem_map.1 h
  obtain ⟨-, e2, -, e4⟩ := (dedupe_wf items).1 kv hkv
  intro p hp hpt
  exact e4 p hp (by rw [hpt, e2])

theorem dedupeProjects_ids_pairwise (items : List Project) :
    (dedupeProjects items).Pairwise (fun a b => a.id ≠ b.id) := by
  have hnd := (dedupe_wf items).2.1
  have hpair : (items.foldl dedupeStep []).Pairwise (fun a b => a.1 ≠ b.1) :=
    List.pairwise_map.1 hnd
  rw [dedupeProjects, List.pairwise_map]
  refine List.Pairwise.imp_of_mem ?_ hpair
  intro a b ha hb hR hbad
  obtain ⟨-, ea, -, -⟩ := (dedupe_wf items).1 a ha
  obtain ⟨-, eb, -, -⟩ := (dedupe_wf items).1 b hb
  apply hR
  rw [← ea, ← eb, hbad]

theorem sanitizeProject_of_clean (t : Project) (h1 : t.status = none)
    (h2 : t.runtime_pid = none) : sanitizeProject t = t := by
  cases t
  simp_all [sanitizeProject]

theorem writeProjectsFile_of_clean (xs : List Project)
    (h : ∀ t ∈ xs, t.status = none ∧ t.runtime_pid = none) :
    writeProjectsFile xs = xs := by
  rw [writeProjectsFile]
  have : ∀ t ∈ xs, sanitizeProject t = t :=
    fun t ht => sanitizeProject_of_clean t (h t ht).1 (h t ht).2
  rw [List.map_congr_left this]
  exact List.map_id xs

/-- C7: `POST /api/projects/dedupe` followed by `GET /api/projects`
(on a store whose rows, as every store write guarantees, carry no
`status`/`runtime_pid` keys) yields a list that (a) is a sub-multiset of
the pre-dedupe list, (b) contains no two tasks with equal id, and
(c) for each id retains an original entry whose parsed `updated_date`
is maximal among the entries sharing that id. -/
theorem dedupe_then_list_properties (items : List Project)
    (hclean : ∀ t ∈ items, t.status = none ∧ t.runtime_pid = none) :
    (∀ t : Project, (listAfterDedupe items).count t ≤ items.count t) ∧
    (listAfterDedupe items).Pairwise (fun a b => a.id ≠ b.id) ∧
    (∀ t ∈ listAfterDedupe items, t ∈ items ∧
      ∀ p ∈ items, p.id = t.id → updatedTime p ≤ updatedTime t) := by
  have hsan : writeProjectsFile (dedupeProjects items) = dedupeProjects items :=
    writeProjectsFile_of_clean _ (fun t ht => hclean t (dedupeProjects_mem items ht))
  have hlist : listAfterDedupe items = dedupeProjects (dedupeProjects items) := by
    rw [listAfterDedupe, hsan]
  refine ⟨?_, ?_, ?_⟩
  · intro t
    rw [hlist]
    exact le_trans (dedupeProjects_count_le _ t) (dedupeProjects_count_le _ t)
  · rw [hlist]
    exact dedupeProjects_ids_pairwise _
  · intro t ht
    rw [hlist] at ht
    have ht1 := dedupeProjects_mem _ ht
    refine ⟨dedupeProjects_mem _ ht1, ?_⟩
    intro p hp hpid
    exact dedupeProjects_max items ht1 p hp (by rw [hpid])

def dupOlder : Project := { id := "a", name := "old", updated_date := some 5 }
def dupNewer : Project := { id := "a", name := "new", updated_date := some 9 }
def dupOther : Project := { id := "b", name := "other", updated_date := some 3 }
def dedupeDemoItems : List Project := [dupOlder, dupNewer, dupOther]

theorem dedupe_then_list_properties_witness :
    ((listAfterDedupe dedupeDemoItems).count dupNewer ≤
        dedupeDemoItems.count dupNewer) ∧
    (listAfterDedupe dedupeDemoItems).Pairwise (fun a b => a.id ≠ b.id) ∧
    (dupNewer ∈ dedupeDemoItems ∧
      ∀ p ∈ dedupeDemoItems, p.id = dupNewer.id →
        updatedTime p ≤ updatedTime dupNewer) := by
  have h := dedupe_then_list_properties dedupeDemoItems
    (by intro t ht; fin_cases ht <;> exact ⟨rfl, rfl⟩)
  exact ⟨h.1 dupNewer, h.2.1, h.2.2 dupNewer (by decide)⟩
